import Mathlib

/-!
Shallow embedding of the data-aggregation layer of `viz/src/lib/data-loader.ts`
from the india-vehicle-stats repository, together with proofs of the
specification's testable properties.

Modelling conventions:
* A JavaScript object with string keys is modelled as an association list in
  insertion (iteration) order; JS objects cannot hold a key twice, which is
  reflected by explicit key-distinctness hypotheses where a proof needs them.
* The three runtime encodings of a series (array of monthly points, month-key
  map, bare number) are an explicit inductive `Series`.
* Years, months and counts are natural numbers, following the data model of
  the repository (Year 2021-2025, Month 1-12, Count a non-negative int64).
* A JavaScript runtime exception (for example calling `.filter` on a value
  that is not an array) is modelled by `Option`: `none` is the thrown
  TypeError, `some` the normal result.
-/

namespace IndiaVehicleStats

/-- One monthly observation of a metric/name pair (source type `MonthlyDataPoint`). -/
structure MonthlyDataPoint where
  year : Nat
  month : Nat
  count : Nat
deriving DecidableEq, Repr

/-- Runtime encodings of the per-name series value inside `OptimizedMetrics`:
an array of monthly data points, a month-key-string map of counts, or a bare
number.  The source inspects the value with `Array.isArray` / `typeof`. -/
inductive Series where
  | points (l : List MonthlyDataPoint)
  | monthMap (l : List (String × Nat))
  | scalar (n : Nat)
deriving DecidableEq, Repr

/-- The names object under one metric: name to series, in insertion order. -/
abbrev NameMap := List (String × Series)

/-- Source type `OptimizedMetrics`: metric to names object, in insertion order. -/
abbrev OptimizedMetrics := List (String × NameMap)

/-- JavaScript property lookup `obj[key]` on an object modelled as an
association list: the first entry with the given key, if any. -/
def lookupKey {α : Type} (m : List (String × α)) (k : String) : Option α :=
  (m.find? (fun p => p.1 == k)).map (fun p => p.2)

/-- The three-way total of one series value.  The source repeats this block
(`Array.isArray` reduce / `Object.values` reduce / direct number) inline in
`calculateTotalRecords`, `calculateTotalsByMetric`, `calculateMetricSummaries`
and `getAvailableNamesSortedByTotal`; it is factored out here once. -/
def seriesTotal : Series → Nat
  | .points l => (l.map (fun d => d.count)).sum
  | .monthMap l => (l.map (fun p => p.2)).sum
  | .scalar n => n

/-- Source `calculateTotalRecords`: grand total over every metric and name. -/
def calculateTotalRecords (m : OptimizedMetrics) : Nat :=
  (m.map (fun e => (e.2.map (fun p => seriesTotal p.2)).sum)).sum

/-- The source condition `!name || currentName === name` of the optional
name argument. -/
def nameMatches (name? : Option String) (n : String) : Bool :=
  match name? with
  | none => true
  | some nm => n == nm

/-- Source `calculateTotalsByMetric`: total over the names of one metric,
optionally restricted to a single name; `0` when the metric is absent. -/
def calculateTotalsByMetric (m : OptimizedMetrics) (metric : String)
    (name? : Option String) : Nat :=
  match lookupKey m metric with
  | none => 0
  | some names =>
      ((names.filter (fun p => nameMatches name? p.1)).map
        (fun p => seriesTotal p.2)).sum

/-- The body `monthlyData.filter(...)` used by the year / year-month filters.
JavaScript throws a TypeError when the series value is not an array (a bare
number or a month-key map has no `filter` method); that abort is `none`. -/
def filterSeries (p : MonthlyDataPoint → Bool) : Series → Option (List MonthlyDataPoint)
  | .points l => some (l.filter p)
  | .monthMap _ => none
  | .scalar _ => none

/-- The inner loop of the year / year-month filters over one metric's names
object: filter each series, keep the name only when some points remain, abort
(TypeError) on a non-array series. -/
def filterNames (p : MonthlyDataPoint → Bool) : NameMap → Option NameMap
  | [] => some []
  | e :: rest => do
      let yd ← filterSeries p e.2
      let rest' ← filterNames p rest
      if yd.isEmpty then pure rest' else pure ((e.1, Series.points yd) :: rest')

/-- The outer loop shared by `filterMetricsByYear` and
`filterMetricsByYearMonth`: metrics whose names object becomes empty are
deleted from the result. -/
def filterMetrics (p : MonthlyDataPoint → Bool) : OptimizedMetrics → Option OptimizedMetrics
  | [] => some []
  | e :: rest => do
      let names' ← filterNames p e.2
      let rest' ← filterMetrics p rest
      if names'.isEmpty then pure rest' else pure ((e.1, names') :: rest')

/-- Source `filterMetricsByYear`: keep only data points of the given year. -/
def filterMetricsByYear (m : OptimizedMetrics) (year : Nat) : Option OptimizedMetrics :=
  filterMetrics (fun d => d.year == year) m

/-- Source `filterMetricsByYearMonth`: keep only data points of the given
year and month. -/
def filterMetricsByYearMonth (m : OptimizedMetrics) (year month : Nat) :
    Option OptimizedMetrics :=
  filterMetrics (fun d => d.year == year && d.month == month) m

/-- Whether a series value is array-encoded (`Array.isArray` in the source). -/
def seriesIsArray : Series → Bool
  | .points _ => true
  | .monthMap _ => false
  | .scalar _ => false

/-- One entry of the monthly-trend result `{ year, month, total_count }`. -/
structure TrendPoint where
  year : Nat
  month : Nat
  total_count : Nat
deriving DecidableEq, Repr

/-- Map-update step `trendsMap.set(key, (trendsMap.get(key) || 0) + count)`.
The source keys the map by the string of year and month joined by a dash and
later splits it back; for natural year and month that encoding is a bijection
onto the keys in use, so the map is modelled keyed by the pair directly.
A JS Map keeps first-insertion order, updating a present key in place. -/
def bumpTrend (acc : List ((Nat × Nat) × Nat)) (key : Nat × Nat) (c : Nat) :
    List ((Nat × Nat) × Nat) :=
  if acc.any (fun e => e.1 == key) then
    acc.map (fun e => if e.1 == key then (e.1, e.2 + c) else e)
  else acc ++ [(key, c)]

/-- Accumulate every point of one array-encoded series into the trends map. -/
def addPoints (acc : List ((Nat × Nat) × Nat)) (l : List MonthlyDataPoint) :
    List ((Nat × Nat) × Nat) :=
  l.foldl (fun a d => bumpTrend a (d.year, d.month) d.count) acc

/-- The comparator `a.year - b.year || a.month - b.month` of the trends sort,
as a boolean (at most) relation: ascending year, then ascending month. -/
def trendLe (a b : TrendPoint) : Bool :=
  Nat.blt a.year b.year || (a.year == b.year && Nat.ble a.month b.month)

/-- One iteration of the trends loop body over a name entry: accumulate an
array-encoded series into the trends map, skip (`continue`) a month-key-map
or bare-number series. -/
def trendStep (acc : List ((Nat × Nat) × Nat)) (p : String × Series) :
    List ((Nat × Nat) × Nat) :=
  match p.2 with
  | .points l => addPoints acc l
  | .monthMap _ => acc
  | .scalar _ => acc

/-- Source `getMonthlyTrendsByMetric`: group the points of the (optionally
name-restricted) series of one metric by (year, month), summing counts, and
sort ascending by year then month.  Month-key-map and bare-number series are
skipped (`continue`), and an absent metric yields the empty list. -/
def getMonthlyTrendsByMetric (m : OptimizedMetrics) (metric : String)
    (name? : Option String) : List TrendPoint :=
  match lookupKey m metric with
  | none => []
  | some names =>
      let entries := (names.filter (fun p => nameMatches name? p.1)).foldl
        trendStep []
      (entries.map (fun e => TrendPoint.mk e.1.1 e.1.2 e.2)).mergeSort trendLe

/-- Boolean lexicographic comparison of character lists, the order
underlying `String`'s order. -/
def charListLt : List Char → List Char → Bool
  | _, [] => false
  | [], _ :: _ => true
  | a :: as, b :: bs => decide (a < b) || (a == b && charListLt as bs)

/-- Boolean strict lexicographic comparison of strings by code point. -/
def strLtb (a b : String) : Bool :=
  charListLt a.data b.data

/-- The comparator of `getAvailableNamesSortedByTotal` as an at-most relation
on (name, total) pairs: descending total, ties broken by ascending name.
The source breaks ties with `localeCompare`; it is modelled as the code-point
lexicographic order on strings (they agree on the ASCII names in the data). -/
def nameTotalLe (a b : String × Nat) : Bool :=
  Nat.blt b.2 a.2 || (a.2 == b.2 && (strLtb a.1 b.1 || a.1 == b.1))

/-- Source `getAvailableNamesSortedByTotal`: all names of one metric sorted
by their series total descending, ties by name ascending; the empty list when
the metric is absent. -/
def getAvailableNamesSortedByTotal (m : OptimizedMetrics) (metric : String) :
    List String :=
  match lookupKey m metric with
  | none => []
  | some names =>
      (((names.map (fun p => (p.1, seriesTotal p.2))).mergeSort nameTotalLe).map
        (fun e => e.1))

/-- Argument type `number | undefined | null` of the formatters, with NaN as
its own case since the source tests `num == null || isNaN(num)`.  Finite
arguments are integers, per the count/revenue data model. -/
inductive JSNumber where
  | null
  | undef
  | nan
  | num (n : Int)
deriving DecidableEq, Repr

/-- Integer model of `(num / d).toFixed(1)` for a non-negative integer `num`
and a power-of-ten divisor `d`: the quotient rounded to one decimal digit,
ties away from zero, rendered with exactly one digit after the dot.  The
source computes the quotient in binary floating point, which agrees with this
exact rounding except possibly at exact half-tie quotients; every input the
specification names is far from a tie. -/
def toFixed1 (num d : Nat) : String :=
  let k := (10 * num + d / 2) / d
  toString (k / 10) ++ "." ++ toString (k % 10)

/-- Source `formatNumber`: Indian-format suffix rendering (crore, lakh,
thousand), with the zero string for null, undefined or NaN input. -/
def formatNumber : JSNumber → String
  | .null => "0"
  | .undef => "0"
  | .nan => "0"
  | .num n =>
      if 10000000 ≤ n then toFixed1 n.toNat 10000000 ++ " Cr"
      else if 100000 ≤ n then toFixed1 n.toNat 100000 ++ " L"
      else if 1000 ≤ n then toFixed1 n.toNat 1000 ++ "K"
      else toString n

/-- Source `formatCurrency`: the same scale with a rupee-sign prefix and the
zero string for null, undefined or NaN input. -/
def formatCurrency : JSNumber → String
  | .null => "₹0"
  | .undef => "₹0"
  | .nan => "₹0"
  | .num n =>
      if 10000000 ≤ n then "₹" ++ toFixed1 n.toNat 10000000 ++ " Cr"
      else if 100000 ≤ n then "₹" ++ toFixed1 n.toNat 100000 ++ " L"
      else if 1000 ≤ n then "₹" ++ toFixed1 n.toNat 1000 ++ "K"
      else "₹" ++ toString n

/-- Source `formatCount`: textually identical to `formatNumber` (the source
duplicates the body). -/
def formatCount : JSNumber → String
  | .null => "0"
  | .undef => "0"
  | .nan => "0"
  | .num n =>
      if 10000000 ≤ n then toFixed1 n.toNat 10000000 ++ " Cr"
      else if 100000 ≤ n then toFixed1 n.toNat 100000 ++ " L"
      else if 1000 ≤ n then toFixed1 n.toNat 1000 ++ "K"
      else toString n

/-- A fetch response as the loader observes it: the `ok` flag, the HTTP
status, and the parsed JSON body.  `Doc` stands for the untyped JSON
document; the loader never inspects it. -/
structure Response (Doc : Type) where
  ok : Bool
  status : Nat
  body : Doc

/-- Result of one loader call under explicit state passing: the value or the
thrown error message, the cache after the call, and the list of URLs fetched
during the call (the fetch-count instrumentation of the specification). -/
structure LoadResult (Doc : Type) where
  result : Except String Doc
  cache : List (String × Doc)
  fetched : List String
deriving Repr

/-- Source `loadStateData`: serve the cache under key `state-` plus the state
code, otherwise fetch `/data/state_<state>.json`; a non-ok response throws an
error naming the state and status and caches nothing, an ok response is
cached and returned.  The module-level `dataCache` map and the fetch effect
are passed explicitly; `fetch` maps a URL to its response. -/
def loadStateData {Doc : Type} (fetch : String → Response Doc)
    (cache : List (String × Doc)) (state : String) : LoadResult Doc :=
  let cacheKey := "state-" ++ state
  match lookupKey cache cacheKey with
  | some d => ⟨Except.ok d, cache, []⟩
  | none =>
      let url := "/data/state_" ++ state ++ ".json"
      let r := fetch url
      if r.ok then
        ⟨Except.ok r.body, cache ++ [(cacheKey, r.body)], [url]⟩
      else
        ⟨Except.error ("Failed to load state data for " ++ state ++ ": "
          ++ toString r.status), cache, [url]⟩

/-- Source `loadCountryData`: the same protocol with fixed cache key
`country` and URL `/data/country.json`. -/
def loadCountryData {Doc : Type} (fetch : String → Response Doc)
    (cache : List (String × Doc)) : LoadResult Doc :=
  match lookupKey cache "country" with
  | some d => ⟨Except.ok d, cache, []⟩
  | none =>
      let r := fetch "/data/country.json"
      if r.ok then
        ⟨Except.ok r.body, cache ++ [("country", r.body)], ["/data/country.json"]⟩
      else
        ⟨Except.error ("Failed to load country data: " ++ toString r.status),
          cache, ["/data/country.json"]⟩

/-- Year-restricted total of one series value: the count sum of the points
of the given year for an array series, zero for the encodings the trends
loop skips.  Proof-side abbreviation for stating the sum lemmas. -/
def seriesYearTotal (Y : Nat) : Series → Nat
  | .points l => ((l.filter (fun d => d.year == Y)).map (fun d => d.count)).sum
  | .monthMap _ => 0
  | .scalar _ => 0

/-- Example document of the specification's test scenario: metric
Transaction, name X, monthly points (2022,1,10), (2022,2,20), (2023,1,5). -/
def exampleModel : OptimizedMetrics :=
  [("Transaction", [("X", Series.points
    [⟨2022, 1, 10⟩, ⟨2022, 2, 20⟩, ⟨2023, 1, 5⟩])])]

/-- Example document exercising all three series encodings at once. -/
def mixedModel : OptimizedMetrics :=
  [("Transaction", [("X", Series.points
      [⟨2022, 1, 10⟩, ⟨2022, 2, 20⟩, ⟨2023, 1, 5⟩]),
    ("Y", Series.scalar 7)]),
   ("Revenue (Tax)", [("MV Tax", Series.monthMap [("2022-1", 3), ("2022-2", 4)])])]

/-- Example document with the tied totals A:100, B:100, C:50 of the ranking
scenario, listed in a non-alphabetical iteration order. -/
def tieModel : OptimizedMetrics :=
  [("Vehicle Manufacturer",
    [("C", Series.scalar 50), ("B", Series.scalar 100), ("A", Series.scalar 100)])]

/-! ## Order lemmas for the string comparison -/

theorem charListLt_iff : ∀ (as bs : List Char),
    charListLt as bs = true ↔ List.Lex (fun a b : Char => a < b) as bs
  | [], [] =>
      iff_of_false (by simp [charListLt]) (fun h => by cases h)
  | [], _ :: _ =>
      iff_of_true (by simp [charListLt]) List.Lex.nil
  | _ :: _, [] =>
      iff_of_false (by simp [charListLt]) (fun h => by cases h)
  | a :: as, b :: bs => by
      simp only [charListLt, Bool.or_eq_true, Bool.and_eq_true, decide_eq_true_eq,
        beq_iff_eq]
      constructor
      · rintro (hlt | ⟨rfl, h⟩)
        · exact List.Lex.rel hlt
        · exact List.Lex.cons ((charListLt_iff as bs).mp h)
      · intro h
        cases h with
        | rel h => exact Or.inl h
        | cons h => exact Or.inr ⟨rfl, (charListLt_iff as bs).mpr h⟩

theorem strLtb_iff_lt (a b : String) : strLtb a b = true ↔ a < b := by
  rw [String.lt_iff_toList_lt]
  exact charListLt_iff a.data b.data

theorem nameTotalLe_iff (a b : String × Nat) :
    nameTotalLe a b = true ↔ b.2 < a.2 ∨ (a.2 = b.2 ∧ a.1 ≤ b.1) := by
  simp only [nameTotalLe, Bool.or_eq_true, Bool.and_eq_true, Nat.blt_eq,
    beq_iff_eq, strLtb_iff_lt, le_iff_lt_or_eq]

theorem nameTotalLe_trans (a b c : String × Nat) (hab : nameTotalLe a b = true)
    (hbc : nameTotalLe b c = true) : nameTotalLe a c = true := by
  rw [nameTotalLe_iff] at hab hbc ⊢
  rcases hab with h1 | ⟨h1, h1'⟩ <;> rcases hbc with h2 | ⟨h2, h2'⟩
  · exact Or.inl (h2.trans h1)
  · exact Or.inl (h2 ▸ h1)
  · exact Or.inl (h1 ▸ h2)
  · exact Or.inr ⟨h1.trans h2, h1'.trans h2'⟩

theorem nameTotalLe_total (a b : String × Nat) :
    (nameTotalLe a b || nameTotalLe b a) = true := by
  rw [Bool.or_eq_true, nameTotalLe_iff, nameTotalLe_iff]
  rcases Nat.lt_trichotomy a.2 b.2 with h | h | h
  · exact Or.inr (Or.inl h)
  · rcases le_total a.1 b.1 with h' | h'
    · exact Or.inl (Or.inr ⟨h, h'⟩)
    · exact Or.inr (Or.inr ⟨h.symm, h'⟩)
  · exact Or.inl (Or.inl h)

theorem nameTotalLe_antisymm (a b : String × Nat) (hab : nameTotalLe a b = true)
    (hba : nameTotalLe b a = true) : a = b := by
  rw [nameTotalLe_iff] at hab hba
  rcases hab with h1 | ⟨h1, h1'⟩ <;> rcases hba with h2 | ⟨h2, h2'⟩
  · exact absurd (h1.trans h2) (lt_irrefl _)
  · exact absurd h1 (h2 ▸ lt_irrefl _)
  · exact absurd h2 (h1 ▸ lt_irrefl _)
  · exact Prod.ext (le_antisymm h1' h2') h1

/-! ## C7: formatter boundary values -/

/-- C7: formatNumber maps the stated boundary inputs to exactly the stated
strings: 999 to "999", 1000 to "1.0K", 99999 to "100.0K", 100000 to "1.0 L",
9999999 to "100.0 L", and 10000000 to "1.0 Cr". -/
theorem formatNumber_boundary_values :
    formatNumber (.num 999) = "999" ∧ formatNumber (.num 1000) = "1.0K" ∧
    formatNumber (.num 99999) = "100.0K" ∧ formatNumber (.num 100000) = "1.0 L" ∧
    formatNumber (.num 9999999) = "100.0 L" ∧
    formatNumber (.num 10000000) = "1.0 Cr" := by
  refine ⟨?_, ?_, ?_, ?_, ?_, ?_⟩ <;> rfl

/-! ## C8: formatter behaviour on null, undefined and NaN -/

/-- C8: for null, undefined, or NaN input each formatter returns the
zero-value string of its variant instead of failing: formatNumber and
formatCount return "0" and formatCurrency returns "₹0". -/
theorem formatters_zero_on_invalid :
    formatNumber .null = "0" ∧ formatNumber .undef = "0" ∧
    formatNumber .nan = "0" ∧ formatCount .null = "0" ∧
    formatCount .undef = "0" ∧ formatCount .nan = "0" ∧
    formatCurrency .null = "₹0" ∧ formatCurrency .undef = "₹0" ∧
    formatCurrency .nan = "₹0" :=
  ⟨rfl, rfl, rfl, rfl, rfl, rfl, rfl, rfl, rfl⟩

/-! ## C2: the year filters on non-array series -/

/-- C2 counterexample: a model whose only series is a bare number is not
silently dropped by filterMetricsByYear; the call aborts with a TypeError
(calling .filter on a number), modelled as none, so the claim that the
function never fails and excludes the entry from the result is false. -/
theorem filterMetricsByYear_scalar_fails :
    filterMetricsByYear [("Transaction", [("X", Series.scalar 5)])] 2022
      = none := by
  rfl

/-- Helper: the bind normal form of one step of the names filter loop. -/
theorem filterNames_cons (p : MonthlyDataPoint → Bool) (e : String × Series)
    (rest : NameMap) :
    filterNames p (e :: rest) = (filterSeries p e.2).bind (fun yd =>
      (filterNames p rest).bind (fun rest' =>
        if yd.isEmpty then some rest'
        else some ((e.1, Series.points yd) :: rest'))) :=
  rfl

/-- Helper: the bind normal form of one step of the metrics filter loop. -/
theorem filterMetrics_cons (p : MonthlyDataPoint → Bool) (e : String × NameMap)
    (rest : OptimizedMetrics) :
    filterMetrics p (e :: rest) = (filterNames p e.2).bind (fun names' =>
      (filterMetrics p rest).bind (fun rest' =>
        if names'.isEmpty then some rest' else some ((e.1, names') :: rest'))) :=
  rfl

/-- Helper: filtering a series fails exactly when it is not array-encoded. -/
theorem filterSeries_eq_none (p : MonthlyDataPoint → Bool) (s : Series) :
    filterSeries p s = none ↔ seriesIsArray s = false := by
  cases s <;> simp [filterSeries, seriesIsArray]

/-- Helper: a successful series filter means the series was array-encoded. -/
theorem filterSeries_eq_some_isArray {p : MonthlyDataPoint → Bool} {s : Series}
    {yd : List MonthlyDataPoint} (h : filterSeries p s = some yd) :
    seriesIsArray s = true := by
  cases s <;> simp_all [filterSeries, seriesIsArray]

/-- Helper: filtering one names object succeeds exactly when every series in
it is array-encoded. -/
theorem filterNames_isSome (p : MonthlyDataPoint → Bool) (ns : NameMap) :
    (filterNames p ns).isSome = true ↔ ∀ q ∈ ns, seriesIsArray q.2 = true := by
  induction ns with
  | nil => simp [filterNames]
  | cons e rest ih =>
      rw [filterNames_cons]
      cases hA : filterSeries p e.2 with
      | none =>
          refine iff_of_false (by simp) (fun h => ?_)
          have h2 := h e (List.mem_cons_self e rest)
          rw [(filterSeries_eq_none p e.2).mp hA] at h2
          exact absurd h2 (by simp)
      | some yd =>
          cases hB : filterNames p rest with
          | none =>
              refine iff_of_false (by simp) (fun h => ?_)
              have h2 : (filterNames p rest).isSome = true :=
                ih.mpr (fun q hq => h q (List.mem_cons_of_mem e hq))
              rw [hB] at h2
              exact absurd h2 (by simp)
          | some rest' =>
              refine iff_of_true (by simp only [Option.some_bind]; split <;> rfl) (fun q hq => ?_)
              rcases List.mem_cons.mp hq with rfl | hq'
              · exact filterSeries_eq_some_isArray hA
              · exact (ih.mp (by rw [hB]; rfl)) q hq'

/-- Helper: the shared filter loop succeeds exactly when every series of
every metric is array-encoded. -/
theorem filterMetrics_isSome (p : MonthlyDataPoint → Bool) (m : OptimizedMetrics) :
    (filterMetrics p m).isSome = true ↔
      ∀ e ∈ m, ∀ q ∈ e.2, seriesIsArray q.2 = true := by
  induction m with
  | nil => simp [filterMetrics]
  | cons e rest ih =>
      rw [filterMetrics_cons]
      cases hA : filterNames p e.2 with
      | none =>
          refine iff_of_false (by simp) (fun h => ?_)
          have h2 : (filterNames p e.2).isSome = true :=
            (filterNames_isSome p e.2).mpr (h e (List.mem_cons_self e rest))
          rw [hA] at h2
          exact absurd h2 (by simp)
      | some ns' =>
          cases hB : filterMetrics p rest with
          | none =>
              refine iff_of_false (by simp) (fun h => ?_)
              have h2 : (filterMetrics p rest).isSome = true :=
                ih.mpr (fun e' he' => h e' (List.mem_cons_of_mem e he'))
              rw [hB] at h2
              exact absurd h2 (by simp)
          | some rest' =>
              refine iff_of_true (by simp only [Option.some_bind]; split <;> rfl) (fun e' he' => ?_)
              rcases List.mem_cons.mp he' with rfl | he''
              · exact (filterNames_isSome p e'.2).mp (by rw [hA]; rfl)
              · exact (ih.mp (by rw [hB]; rfl)) e' he''

/-- C2 (amended): filterMetricsByYear and filterMetricsByYearMonth are total
exactly on models in which every series is array-encoded (those series are
filtered by year, or by year and month); a model containing a bare-number or
month-key-map series makes either function throw a TypeError (modelled as
none) instead of the entry being dropped from the result. -/
theorem filterMetrics_defined_iff_array_encoded (m : OptimizedMetrics)
    (year month : Nat) :
    ((filterMetricsByYear m year).isSome = true ↔
      ∀ e ∈ m, ∀ q ∈ e.2, seriesIsArray q.2 = true) ∧
    ((filterMetricsByYearMonth m year month).isSome = true ↔
      ∀ e ∈ m, ∀ q ∈ e.2, seriesIsArray q.2 = true) :=
  ⟨filterMetrics_isSome _ m, filterMetrics_isSome _ m⟩

/-! ## C3, C4: algebra of the year / year-month filters -/

/-- Helper: a filtered series filters to itself again. -/
theorem filterSeries_points_again {p : MonthlyDataPoint → Bool} {s : Series}
    {yd : List MonthlyDataPoint} (h : filterSeries p s = some yd) :
    filterSeries p (Series.points yd) = some yd := by
  cases s with
  | points l =>
      simp only [filterSeries, Option.some.injEq] at h
      subst h
      simp [filterSeries, List.filter_filter]
  | monthMap l => simp [filterSeries] at h
  | scalar n => simp [filterSeries] at h

/-- Helper: refiltering the output of the names filter loop is the identity. -/
theorem filterNames_idem {p : MonthlyDataPoint → Bool} :
    ∀ {ns r : NameMap}, filterNames p ns = some r → filterNames p r = some r := by
  intro ns
  induction ns with
  | nil =>
      intro r h
      simp only [filterNames, Option.some.injEq] at h
      subst h
      rfl
  | cons e rest ih =>
      intro r h
      rw [filterNames_cons] at h
      cases hA : filterSeries p e.2 with
      | none => rw [hA] at h; simp at h
      | some yd =>
          rw [hA] at h
          cases hB : filterNames p rest with
          | none => rw [hB] at h; simp at h
          | some rest' =>
              rw [hB] at h
              simp only [Option.some_bind] at h
              by_cases hyd : yd.isEmpty
              · rw [if_pos hyd] at h
                cases h
                exact ih hB
              · rw [if_neg hyd] at h
                cases h
                rw [filterNames_cons]
                rw [filterSeries_points_again hA, ih hB]
                simp only [Option.some_bind]
                rw [if_neg hyd]

/-- Helper: refiltering the output of the metrics filter loop is the identity. -/
theorem filterMetrics_idem {p : MonthlyDataPoint → Bool} :
    ∀ {m r : OptimizedMetrics}, filterMetrics p m = some r → filterMetrics p r = some r := by
  intro m
  induction m with
  | nil =>
      intro r h
      simp only [filterMetrics, Option.some.injEq] at h
      subst h
      rfl
  | cons e rest ih =>
      intro r h
      rw [filterMetrics_cons] at h
      cases hA : filterNames p e.2 with
      | none => rw [hA] at h; simp at h
      | some ns' =>
          rw [hA] at h
          cases hB : filterMetrics p rest with
          | none => rw [hB] at h; simp at h
          | some rest' =>
              rw [hB] at h
              simp only [Option.some_bind] at h
              by_cases hns : ns'.isEmpty
              · rw [if_pos hns] at h
                cases h
                exact ih hB
              · rw [if_neg hns] at h
                cases h
                rw [filterMetrics_cons]
                rw [filterNames_idem hA, ih hB]
                simp only [Option.some_bind]
                rw [if_neg hns]

/-- C3: filtering by a year and month is idempotent: applying
filterMetricsByYearMonth to its own (possibly failing) result with the same
year and month gives the same result, for every model.  The embedding is
pure, so the input model is a value that the call cannot mutate; freshness of
the output structure is inherent. -/
theorem filterMetricsByYearMonth_idempotent (m : OptimizedMetrics) (Y M : Nat) :
    (filterMetricsByYearMonth m Y M).bind
      (fun r => filterMetricsByYearMonth r Y M) = filterMetricsByYearMonth m Y M := by
  cases h : filterMetricsByYearMonth m Y M with
  | none => rfl
  | some r => exact filterMetrics_idem h

/-- Helper: filtering with a finer predicate factors through a coarser one,
series level. -/
theorem filter_filter_of_imp {p q : MonthlyDataPoint → Bool}
    (hpq : ∀ d, p d = true → q d = true) (l : List MonthlyDataPoint) :
    (l.filter q).filter p = l.filter p := by
  rw [List.filter_filter]
  exact List.filter_congr (fun d _ => by
    cases hp : p d
    · simp
    · simp [hpq d hp])

/-- Helper: the names filter loop with a finer predicate factors through a
coarser one. -/
theorem filterNames_comp {p q : MonthlyDataPoint → Bool}
    (hpq : ∀ d, p d = true → q d = true) :
    ∀ ns : NameMap, filterNames p ns = (filterNames q ns).bind (filterNames p) := by
  intro ns
  induction ns with
  | nil => rfl
  | cons e rest ih =>
      cases he : e.2 with
      | monthMap l =>
          rw [filterNames_cons, filterNames_cons, he]
          simp [filterSeries]
      | scalar n =>
          rw [filterNames_cons, filterNames_cons, he]
          simp [filterSeries]
      | points l =>
          rw [filterNames_cons, filterNames_cons, he]
          simp only [filterSeries, Option.some_bind]
          cases hrest : filterNames q rest with
          | none =>
              have hp : filterNames p rest = none := by
                rw [ih, hrest]; rfl
              rw [hp]
              simp only [Option.none_bind]
          | some rq =>
              have hp : filterNames p rest = filterNames p rq := by
                rw [ih, hrest]; rfl
              by_cases hq : (l.filter q).isEmpty
              · have hpe : l.filter p = [] := by
                  rw [← filter_filter_of_imp hpq l,
                    List.isEmpty_iff.mp hq]
                  rfl
                cases hfp : filterNames p rq with
                | none =>
                    rw [hp, hfp]
                    simp only [Option.none_bind, if_pos hq, Option.some_bind, hfp]
                | some rp =>
                    rw [hp, hfp]
                    simp only [Option.some_bind, if_pos hq, hfp, hpe,
                      List.isEmpty_nil, eq_self_iff_true, if_true]
              · simp only [Option.some_bind, if_neg hq]
                rw [filterNames_cons]
                simp only [filterSeries, Option.some_bind,
                  filter_filter_of_imp hpq l, hp]

/-- Helper: the metrics filter loop with a finer predicate factors through a
coarser one. -/
theorem filterMetrics_comp {p q : MonthlyDataPoint → Bool}
    (hpq : ∀ d, p d = true → q d = true) :
    ∀ m : OptimizedMetrics,
      filterMetrics p m = (filterMetrics q m).bind (filterMetrics p) := by
  intro m
  induction m with
  | nil => rfl
  | cons e rest ih =>
      rw [filterMetrics_cons, filterMetrics_cons]
      cases hq : filterNames q e.2 with
      | none =>
          have hpnone : filterNames p e.2 = none := by
            rw [filterNames_comp hpq, hq]; rfl
          rw [hpnone]
          rfl
      | some nq =>
          have hpnq : filterNames p e.2 = filterNames p nq := by
            rw [filterNames_comp hpq, hq]; rfl
          cases hrest : filterMetrics q rest with
          | none =>
              have hp : filterMetrics p rest = none := by
                rw [ih, hrest]; rfl
              rw [hp]
              simp only [Option.some_bind, Option.none_bind]
              cases filterNames p e.2 <;> simp
          | some rq =>
              have hp : filterMetrics p rest = filterMetrics p rq := by
                rw [ih, hrest]; rfl
              by_cases hnq : nq.isEmpty
              · have hse : filterNames p e.2 = some [] := by
                  rw [hpnq, List.isEmpty_iff.mp hnq]
                  rfl
                rw [hse]
                simp only [Option.some_bind, if_pos hnq, List.isEmpty_nil,
                  if_true, hp]
                cases filterMetrics p rq <;> rfl
              · simp only [Option.some_bind, if_neg hnq]
                rw [filterMetrics_cons]
                simp only [hpnq, hp]

/-- C4: filtering by year and month directly equals filtering by the year
first and then by the year and month, for every model (both sides fail
together on models holding a non-array series). -/
theorem filterMetricsByYearMonth_after_filterMetricsByYear
    (m : OptimizedMetrics) (y mo : Nat) :
    filterMetricsByYearMonth m y mo =
      (filterMetricsByYear m y).bind (fun r => filterMetricsByYearMonth r y mo) := by
  exact filterMetrics_comp (fun d h => by
    simp only [Bool.and_eq_true] at h
    exact h.1) m

/-! ## C1: total records against per-metric totals -/

/-- Helper: property lookup finds the head entry under its own key. -/
theorem lookupKey_cons_self {α : Type} (e : String × α) (rest : List (String × α)) :
    lookupKey (e :: rest) e.1 = some e.2 := by
  unfold lookupKey
  rw [List.find?_cons_of_pos _ (by simp)]
  rfl

/-- Helper: property lookup skips a head entry with a different key. -/
theorem lookupKey_cons_ne {α : Type} (e : String × α) (rest : List (String × α))
    (k : String) (hne : e.1 ≠ k) : lookupKey (e :: rest) k = lookupKey rest k := by
  unfold lookupKey
  rw [List.find?_cons_of_neg _ (by simp [hne])]

/-- Helper: with no name restriction the per-metric total of the head metric
is the plain sum of its series totals. -/
theorem calculateTotalsByMetric_cons_self (e : String × NameMap)
    (rest : OptimizedMetrics) :
    calculateTotalsByMetric (e :: rest) e.1 none
      = (e.2.map (fun p => seriesTotal p.2)).sum := by
  unfold calculateTotalsByMetric
  rw [lookupKey_cons_self]
  simp [nameMatches]

/-- C1: for every model over all three series encodings whose metric keys
are distinct (JS objects cannot repeat a key), calculateTotalRecords equals
the sum over every metric present in the model of calculateTotalsByMetric
with no name restriction. -/
theorem calculateTotalRecords_eq_sum_calculateTotalsByMetric
    (m : OptimizedMetrics) (h : (m.map Prod.fst).Nodup) :
    calculateTotalRecords m
      = (m.map (fun e => calculateTotalsByMetric m e.1 none)).sum := by
  induction m with
  | nil => rfl
  | cons e rest ih =>
      have hnotmem : e.1 ∉ rest.map Prod.fst := by
        simp only [List.map_cons, List.nodup_cons] at h
        exact h.1
      have htail : ∀ x ∈ rest,
          calculateTotalsByMetric (e :: rest) x.1 none
            = calculateTotalsByMetric rest x.1 none := by
        intro x hx
        have hne : e.1 ≠ x.1 := by
          intro hcontra
          exact hnotmem (hcontra ▸ List.mem_map_of_mem Prod.fst hx)
        unfold calculateTotalsByMetric
        rw [lookupKey_cons_ne _ _ _ hne]
      have hrestnd : (rest.map Prod.fst).Nodup := by
        simp only [List.map_cons, List.nodup_cons] at h
        exact h.2
      calc calculateTotalRecords (e :: rest)
          = (e.2.map (fun p => seriesTotal p.2)).sum + calculateTotalRecords rest := by
            simp [calculateTotalRecords]
        _ = calculateTotalsByMetric (e :: rest) e.1 none
              + (rest.map (fun x => calculateTotalsByMetric rest x.1 none)).sum := by
            rw [calculateTotalsByMetric_cons_self, ih hrestnd]
        _ = calculateTotalsByMetric (e :: rest) e.1 none
              + (rest.map (fun x => calculateTotalsByMetric (e :: rest) x.1 none)).sum := by
            rw [List.map_congr_left htail]
        _ = ((e :: rest).map (fun x => calculateTotalsByMetric (e :: rest) x.1 none)).sum := by
            simp

/-- Witness for C1 at a concrete document exercising all three encodings. -/
theorem calculateTotalRecords_eq_sum_calculateTotalsByMetric_witness :
    (mixedModel.map Prod.fst).Nodup ∧
    calculateTotalRecords mixedModel
      = (mixedModel.map (fun e => calculateTotalsByMetric mixedModel e.1 none)).sum :=
  ⟨by decide,
    calculateTotalRecords_eq_sum_calculateTotalsByMetric mixedModel (by decide)⟩

/-! ## C9: loader and cache behaviour -/

/-- Helper: appending an entry under a previously missing key makes lookup
find it. -/
theorem lookupKey_append_of_none {α : Type} {c : List (String × α)} {k : String}
    (h : lookupKey c k = none) (d : α) :
    lookupKey (c ++ [(k, d)]) k = some d := by
  unfold lookupKey at h ⊢
  rw [List.find?_append]
  cases hf : c.find? (fun p => p.1 == k) with
  | none => simp
  | some e => rw [hf] at h; simp at h

/-- C9: for a cached key the loader answers from the cache with no fetch;
for an uncached key a non-ok response yields an error carrying the request
identity and status while the cache is unchanged (so a repeat call fetches
again), and an ok response is stored so that a second call returns the same
document with no further fetch.  Stated for loadStateData and
loadCountryData over an explicit cache state and fetch oracle. -/
theorem loader_cache_spec {Doc : Type} (fetch : String → Response Doc)
    (cache : List (String × Doc)) (state : String) :
    (∀ d, lookupKey cache ("state-" ++ state) = some d →
        loadStateData fetch cache state = ⟨Except.ok d, cache, []⟩) ∧
    (lookupKey cache ("state-" ++ state) = none →
      ((fetch ("/data/state_" ++ state ++ ".json")).ok = false →
          loadStateData fetch cache state =
            ⟨Except.error ("Failed to load state data for " ++ state ++ ": "
                ++ toString (fetch ("/data/state_" ++ state ++ ".json")).status),
              cache, ["/data/state_" ++ state ++ ".json"]⟩ ∧
          (loadStateData fetch (loadStateData fetch cache state).cache state).fetched
            = ["/data/state_" ++ state ++ ".json"]) ∧
      ((fetch ("/data/state_" ++ state ++ ".json")).ok = true →
          loadStateData fetch cache state =
            ⟨Except.ok (fetch ("/data/state_" ++ state ++ ".json")).body,
              cache ++ [("state-" ++ state,
                (fetch ("/data/state_" ++ state ++ ".json")).body)],
              ["/data/state_" ++ state ++ ".json"]⟩ ∧
          loadStateData fetch (loadStateData fetch cache state).cache state =
            ⟨Except.ok (fetch ("/data/state_" ++ state ++ ".json")).body,
              (loadStateData fetch cache state).cache, []⟩)) ∧
    (∀ d, lookupKey cache "country" = some d →
        loadCountryData fetch cache = ⟨Except.ok d, cache, []⟩) ∧
    (lookupKey cache "country" = none →
      ((fetch "/data/country.json").ok = false →
          loadCountryData fetch cache =
            ⟨Except.error ("Failed to load country data: "
                ++ toString (fetch "/data/country.json").status),
              cache, ["/data/country.json"]⟩) ∧
      ((fetch "/data/country.json").ok = true →
          loadCountryData fetch cache =
            ⟨Except.ok (fetch "/data/country.json").body,
              cache ++ [("country", (fetch "/data/country.json").body)],
              ["/data/country.json"]⟩ ∧
          loadCountryData fetch (loadCountryData fetch cache).cache =
            ⟨Except.ok (fetch "/data/country.json").body,
              (loadCountryData fetch cache).cache, []⟩)) := by
  refine ⟨?_, ?_, ?_, ?_⟩
  · intro d hd
    simp [loadStateData, hd]
  · intro hmiss
    constructor
    · intro hfail
      have h1 : loadStateData fetch cache state =
          ⟨Except.error ("Failed to load state data for " ++ state ++ ": "
              ++ toString (fetch ("/data/state_" ++ state ++ ".json")).status),
            cache, ["/data/state_" ++ state ++ ".json"]⟩ := by
        simp [loadStateData, hmiss, hfail]
      refine ⟨h1, ?_⟩
      simp only [h1]
    · intro hok
      have h1 : loadStateData fetch cache state =
          ⟨Except.ok (fetch ("/data/state_" ++ state ++ ".json")).body,
            cache ++ [("state-" ++ state,
              (fetch ("/data/state_" ++ state ++ ".json")).body)],
            ["/data/state_" ++ state ++ ".json"]⟩ := by
        simp [loadStateData, hmiss, hok]
      refine ⟨h1, ?_⟩
      simp only [h1]
      simp [loadStateData,
        lookupKey_append_of_none hmiss (fetch ("/data/state_" ++ state ++ ".json")).body]
  · intro d hd
    simp [loadCountryData, hd]
  · intro hmiss
    constructor
    · intro hfail
      simp [loadCountryData, hmiss, hfail]
    · intro hok
      have h1 : loadCountryData fetch cache =
          ⟨Except.ok (fetch "/data/country.json").body,
            cache ++ [("country", (fetch "/data/country.json").body)],
            ["/data/country.json"]⟩ := by
        simp [loadCountryData, hmiss, hok]
      refine ⟨h1, ?_⟩
      simp only [h1]
      simp [loadCountryData,
        lookupKey_append_of_none hmiss (fetch "/data/country.json").body]

/-- Witness for C9: with an empty cache, a 404 response produces the error
carrying the state and status and caches nothing, while an ok response is
cached under the state key. -/
theorem loader_cache_spec_witness :
    loadStateData (fun _ => (⟨false, 404, (0 : Nat)⟩ : Response Nat)) [] "KA"
      = ⟨Except.error "Failed to load state data for KA: 404", [],
          ["/data/state_KA.json"]⟩ ∧
    loadStateData (fun _ => (⟨true, 200, (7 : Nat)⟩ : Response Nat)) [] "KA"
      = ⟨Except.ok 7, [("state-KA", 7)], ["/data/state_KA.json"]⟩ :=
  ⟨(((loader_cache_spec (fun _ => (⟨false, 404, (0 : Nat)⟩ : Response Nat))
      [] "KA").2.1 rfl).1 rfl).1,
   (((loader_cache_spec (fun _ => (⟨true, 200, (7 : Nat)⟩ : Response Nat))
      [] "KA").2.1 rfl).2 rfl).1⟩

/-! ## C6: ranking of names by total -/

/-- Helper: under distinct names, restricting a names object to one of its
names keeps exactly that entry. -/
theorem filter_nameMatches_eq_singleton :
    ∀ names : NameMap, (names.map Prod.fst).Nodup →
      ∀ e : String × Series, e ∈ names →
        names.filter (fun p => nameMatches (some e.1) p.1) = [e] := by
  intro names
  induction names with
  | nil =>
      intro _ e he
      cases he
  | cons a rest ih =>
      intro hnd e he
      simp only [List.map_cons, List.nodup_cons] at hnd
      rcases List.mem_cons.mp he with rfl | he'
      · rw [List.filter_cons_of_pos (by simp [nameMatches])]
        have hrest : rest.filter (fun p => nameMatches (some e.1) p.1) = [] := by
          rw [List.filter_eq_nil_iff]
          intro p hp
          simp only [nameMatches, beq_iff_eq]
          intro hcontra
          exact hnd.1 (hcontra ▸ List.mem_map_of_mem Prod.fst hp)
        rw [hrest]
      · have hne : a.1 ≠ e.1 := fun hcontra =>
          hnd.1 (hcontra ▸ List.mem_map_of_mem Prod.fst he')
        rw [List.filter_cons_of_neg
          (by simp only [nameMatches, beq_iff_eq]; exact hne)]
        exact ih hnd.2 e he'

/-- Helper: under distinct names, the name-restricted per-metric total of a
present name is that name's series total. -/
theorem calculateTotalsByMetric_mem (m : OptimizedMetrics) (metric : String)
    (names : NameMap) (h : lookupKey m metric = some names)
    (hnd : (names.map Prod.fst).Nodup) (e : String × Series) (he : e ∈ names) :
    calculateTotalsByMetric m metric (some e.1) = seriesTotal e.2 := by
  unfold calculateTotalsByMetric
  rw [h]
  show ((names.filter (fun p => nameMatches (some e.1) p.1)).map
    (fun p => seriesTotal p.2)).sum = seriesTotal e.2
  rw [filter_nameMatches_eq_singleton names hnd e he]
  simp

/-- C6: for a metric present with distinct names, the ranked list is a
permutation of all the names, is ordered by strictly descending total with
ties broken by strictly ascending name, and is the same for every iteration
order of the input map. -/
theorem getAvailableNamesSortedByTotal_ranking (m : OptimizedMetrics)
    (metric : String) (names : NameMap)
    (h : lookupKey m metric = some names)
    (hnd : (names.map Prod.fst).Nodup) :
    (getAvailableNamesSortedByTotal m metric).Perm (names.map Prod.fst) ∧
    List.Pairwise (fun n₁ n₂ =>
      calculateTotalsByMetric m metric (some n₂)
          < calculateTotalsByMetric m metric (some n₁)
      ∨ (calculateTotalsByMetric m metric (some n₁)
            = calculateTotalsByMetric m metric (some n₂) ∧ n₁ < n₂))
      (getAvailableNamesSortedByTotal m metric) ∧
    (∀ (m₂ : OptimizedMetrics) (names₂ : NameMap),
        lookupKey m₂ metric = some names₂ → names₂.Perm names →
        getAvailableNamesSortedByTotal m₂ metric
          = getAvailableNamesSortedByTotal m metric) := by
  have hout : getAvailableNamesSortedByTotal m metric
      = ((names.map (fun p => (p.1, seriesTotal p.2))).mergeSort
          nameTotalLe).map Prod.fst := by
    unfold getAvailableNamesSortedByTotal
    rw [h]
  have hperm : ((names.map (fun p => (p.1, seriesTotal p.2))).mergeSort
      nameTotalLe).Perm (names.map (fun p => (p.1, seriesTotal p.2))) :=
    List.mergeSort_perm _ _
  have hsorted := List.sorted_mergeSort nameTotalLe_trans nameTotalLe_total
    (names.map (fun p => (p.1, seriesTotal p.2)))
  have hmapfst : (names.map (fun p => (p.1, seriesTotal p.2))).map Prod.fst
      = names.map Prod.fst := by
    rw [List.map_map]
    rfl
  refine ⟨?_, ?_, ?_⟩
  · rw [hout, ← hmapfst]
    exact hperm.map Prod.fst
  · rw [hout]
    have hnd2 : (((names.map (fun p => (p.1, seriesTotal p.2))).mergeSort
        nameTotalLe).map Prod.fst).Nodup := by
      have hp2 := hperm.map Prod.fst
      rw [hmapfst] at hp2
      exact hp2.symm.nodup hnd
    have hpw_ne : List.Pairwise (fun a b : String × Nat => a.1 ≠ b.1)
        ((names.map (fun p => (p.1, seriesTotal p.2))).mergeSort nameTotalLe) :=
      List.pairwise_map.mp hnd2
    apply List.pairwise_map.mpr
    refine List.Pairwise.imp_of_mem ?_ (hsorted.and hpw_ne)
    intro a b ha hb hab
    obtain ⟨hle, hne⟩ := hab
    obtain ⟨ea, hea, heq_a⟩ := List.mem_map.mp (hperm.mem_iff.mp ha)
    obtain ⟨eb, heb, heq_b⟩ := List.mem_map.mp (hperm.mem_iff.mp hb)
    have hta : calculateTotalsByMetric m metric (some a.1) = a.2 := by
      rw [← heq_a]
      exact calculateTotalsByMetric_mem m metric names h hnd ea hea
    have htb : calculateTotalsByMetric m metric (some b.1) = b.2 := by
      rw [← heq_b]
      exact calculateTotalsByMetric_mem m metric names h hnd eb heb
    rw [nameTotalLe_iff] at hle
    rcases hle with hlt | ⟨heq, hle'⟩
    · left
      rw [hta, htb]
      exact hlt
    · right
      exact ⟨by rw [hta, htb, heq], lt_of_le_of_ne hle' hne⟩
  · intro m₂ names₂ h₂ hperm₂
    have hout₂ : getAvailableNamesSortedByTotal m₂ metric
        = ((names₂.map (fun p => (p.1, seriesTotal p.2))).mergeSort
            nameTotalLe).map Prod.fst := by
      unfold getAvailableNamesSortedByTotal
      rw [h₂]
    haveI : IsAntisymm (String × Nat) (fun a b => nameTotalLe a b = true) :=
      ⟨nameTotalLe_antisymm⟩
    have hsorted₂ := List.sorted_mergeSort nameTotalLe_trans nameTotalLe_total
      (names₂.map (fun p => (p.1, seriesTotal p.2)))
    have hperm' : ((names₂.map (fun p => (p.1, seriesTotal p.2))).mergeSort
        nameTotalLe).Perm
        ((names.map (fun p => (p.1, seriesTotal p.2))).mergeSort nameTotalLe) :=
      (List.mergeSort_perm _ _).trans
        ((hperm₂.map (fun p => (p.1, seriesTotal p.2))).trans hperm.symm)
    have heq := List.eq_of_perm_of_sorted hperm' hsorted₂ hsorted
    rw [hout₂, hout, heq]

/-- Witness for C6 at the tie scenario with totals A:100, B:100, C:50 given
in the iteration order C, B, A: the ranking is exactly A, B, C. -/
theorem getAvailableNamesSortedByTotal_ranking_witness :
    getAvailableNamesSortedByTotal tieModel "Vehicle Manufacturer"
      = ["A", "B", "C"] ∧
    (getAvailableNamesSortedByTotal tieModel "Vehicle Manufacturer").Perm
      ["C", "B", "A"] := by
  have hmain := getAvailableNamesSortedByTotal_ranking tieModel
    "Vehicle Manufacturer"
    [("C", Series.scalar 50), ("B", Series.scalar 100), ("A", Series.scalar 100)]
    rfl (by decide)
  refine ⟨?_, hmain.1⟩
  have hout : getAvailableNamesSortedByTotal tieModel "Vehicle Manufacturer"
      = (([("C", Series.scalar 50), ("B", Series.scalar 100),
          ("A", Series.scalar 100)].map
            (fun p => (p.1, seriesTotal p.2))).mergeSort nameTotalLe).map
          Prod.fst := by
    unfold getAvailableNamesSortedByTotal
    rfl
  haveI : IsAntisymm (String × Nat) (fun a b => nameTotalLe a b = true) :=
    ⟨nameTotalLe_antisymm⟩
  have hsorted := List.sorted_mergeSort nameTotalLe_trans nameTotalLe_total
    ([("C", Series.scalar 50), ("B", Series.scalar 100),
      ("A", Series.scalar 100)].map (fun p => (p.1, seriesTotal p.2)))
  have hperm' : (([("C", Series.scalar 50), ("B", Series.scalar 100),
      ("A", Series.scalar 100)].map
        (fun p => (p.1, seriesTotal p.2))).mergeSort nameTotalLe).Perm
      [("A", 100), ("B", 100), ("C", 50)] :=
    (List.mergeSort_perm _ _).trans (by decide)
  have heq := List.eq_of_perm_of_sorted hperm' hsorted (by decide)
  rw [hout, heq]
  rfl

/-! ## Trends-map invariants shared by C5 and C10 -/

/-- Helper: updating the value under a key leaves the key list unchanged. -/
theorem update_map_fst (acc : List ((Nat × Nat) × Nat)) (key : Nat × Nat) (c : Nat) :
    (acc.map (fun e => if e.1 == key then (e.1, e.2 + c) else e)).map Prod.fst
      = acc.map Prod.fst := by
  rw [List.map_map]
  apply List.map_congr_left
  intro e _
  cases he : (e.1 == key) <;> simp [he, Function.comp]

/-- Helper: updating under an absent key is the identity. -/
theorem update_not_mem (acc : List ((Nat × Nat) × Nat)) (key : Nat × Nat) (c : Nat)
    (h : ∀ e ∈ acc, (e.1 == key) = false) :
    acc.map (fun e => if e.1 == key then (e.1, e.2 + c) else e) = acc := by
  have hid : acc.map (fun e => if e.1 == key then (e.1, e.2 + c) else e)
      = acc.map id := List.map_congr_left (fun e he => by simp [h e he])
  rw [hid, List.map_id]

/-- Helper: one map update preserves distinctness of the keys. -/
theorem bumpTrend_nodup {acc : List ((Nat × Nat) × Nat)}
    (h : (acc.map Prod.fst).Nodup) (key : Nat × Nat) (c : Nat) :
    ((bumpTrend acc key c).map Prod.fst).Nodup := by
  unfold bumpTrend
  cases hany : acc.any (fun e => e.1 == key) with
  | true =>
      simp only [hany, if_true]
      rw [update_map_fst]
      exact h
  | false =>
      rw [if_neg (by simp [hany])]
      have hkey : key ∉ acc.map Prod.fst := by
        intro hmem
        obtain ⟨e, he, heq⟩ := List.mem_map.mp hmem
        have hc : acc.any (fun e => e.1 == key) = true :=
          List.any_eq_true.mpr ⟨e, he, by simp [heq]⟩
        rw [hany] at hc
        exact absurd hc (by simp)
      rw [List.map_append, List.nodup_append]
      refine ⟨h, List.nodup_singleton key, ?_⟩
      intro a ha hb
      simp only [List.map_cons, List.map_nil, List.mem_singleton] at hb
      subst hb
      exact hkey ha

/-- Helper: updating a present key (with distinct keys) adds its count to
the per-year value sum exactly when the key lies in that year. -/
theorem update_yearSum (key : Nat × Nat) (c Y : Nat) :
    ∀ acc : List ((Nat × Nat) × Nat), (acc.map Prod.fst).Nodup →
      acc.any (fun e => e.1 == key) = true →
      (((acc.map (fun e => if e.1 == key then (e.1, e.2 + c) else e)).filter
          (fun e => e.1.1 == Y)).map (fun e => e.2)).sum
        = ((acc.filter (fun e => e.1.1 == Y)).map (fun e => e.2)).sum
          + (if key.1 == Y then c else 0) := by
  intro acc
  induction acc with
  | nil =>
      intro _ h
      simp at h
  | cons a rest ih =>
      intro hnd hany
      simp only [List.map_cons, List.nodup_cons] at hnd
      cases hak : (a.1 == key) with
      | true =>
          have hkeq : a.1 = key := beq_iff_eq.mp hak
          have hrest : rest.map (fun e => if e.1 == key then (e.1, e.2 + c) else e)
              = rest := by
            apply update_not_mem
            intro e he
            have hne : e.1 ≠ key := fun hc => hnd.1 (by
              rw [hkeq]
              rw [← hc]
              exact List.mem_map_of_mem Prod.fst he)
            simp [hne]
          have hhead : (if (a.1 == key) = true then (a.1, a.2 + c) else a)
              = (a.1, a.2 + c) := if_pos hak
          simp only [List.map_cons, hhead, hrest]
          cases hay : (a.1.1 == Y) with
          | true =>
              have hky : (key.1 == Y) = true := by rw [← hkeq]; exact hay
              rw [List.filter_cons_of_pos (by exact hay),
                List.filter_cons_of_pos (by exact hay), if_pos hky]
              simp only [List.map_cons, List.sum_cons]
              omega
          | false =>
              have hky : (key.1 == Y) = false := by rw [← hkeq]; exact hay
              rw [List.filter_cons_of_neg (by simp [hay]),
                List.filter_cons_of_neg (by simp [hay]),
                if_neg (by simp [hky])]
              simp
      | false =>
          have hany' : rest.any (fun e => e.1 == key) = true := by
            rw [List.any_cons, hak] at hany
            simpa using hany
          have hhead : (if (a.1 == key) = true then (a.1, a.2 + c) else a) = a :=
            if_neg (by simp [hak])
          simp only [List.map_cons, hhead]
          cases hay : (a.1.1 == Y) with
          | true =>
              rw [List.filter_cons_of_pos (by exact hay),
                List.filter_cons_of_pos (by exact hay)]
              simp only [List.map_cons, List.sum_cons]
              rw [ih hnd.2 hany']
              omega
          | false =>
              rw [List.filter_cons_of_neg (by simp [hay]),
                List.filter_cons_of_neg (by simp [hay])]
              exact ih hnd.2 hany'

/-- Helper: one trends-map update (with distinct keys) adds the count to the
per-year value sum exactly when the updated key lies in that year. -/
theorem bumpTrend_yearSum {acc : List ((Nat × Nat) × Nat)}
    (hnd : (acc.map Prod.fst).Nodup) (key : Nat × Nat) (c Y : Nat) :
    (((bumpTrend acc key c).filter (fun e => e.1.1 == Y)).map
        (fun e => e.2)).sum
      = ((acc.filter (fun e => e.1.1 == Y)).map (fun e => e.2)).sum
        + (if key.1 == Y then c else 0) := by
  unfold bumpTrend
  cases hany : acc.any (fun e => e.1 == key) with
  | true =>
      rw [if_pos (by simp [hany])]
      exact update_yearSum key c Y acc hnd hany
  | false =>
      rw [if_neg (by simp [hany])]
      rw [List.filter_append, List.map_append, List.sum_append]
      cases hky : (key.1 == Y) with
      | true => simp [List.filter_cons, hky]
      | false => simp [List.filter_cons, hky]

/-- Helper: accumulating a point list preserves distinctness of the keys. -/
theorem addPoints_nodup :
    ∀ (l : List MonthlyDataPoint) {acc : List ((Nat × Nat) × Nat)},
      (acc.map Prod.fst).Nodup → ((addPoints acc l).map Prod.fst).Nodup := by
  intro l
  induction l with
  | nil =>
      intro acc h
      exact h
  | cons d rest ih =>
      intro acc h
      exact ih (bumpTrend_nodup h (d.year, d.month) d.count)

/-- Helper: accumulating a point list adds its per-year count sum to the
per-year value sum of the trends map. -/
theorem addPoints_yearSum (Y : Nat) :
    ∀ (l : List MonthlyDataPoint) (acc : List ((Nat × Nat) × Nat)),
      (acc.map Prod.fst).Nodup →
      (((addPoints acc l).filter (fun e => e.1.1 == Y)).map (fun e => e.2)).sum
        = ((acc.filter (fun e => e.1.1 == Y)).map (fun e => e.2)).sum
          + ((l.filter (fun d => d.year == Y)).map (fun d => d.count)).sum := by
  intro l
  induction l with
  | nil =>
      intro acc _
      simp [addPoints]
  | cons d rest ih =>
      intro acc hnd
      have hb := bumpTrend_yearSum hnd (d.year, d.month) d.count Y
      have hite : (if (((d.year, d.month) : Nat × Nat).1 == Y) = true
            then d.count else 0)
          = (if (d.year == Y) = true then d.count else 0) := rfl
      rw [hite] at hb
      have hstep : addPoints acc (d :: rest)
          = addPoints (bumpTrend acc (d.year, d.month) d.count) rest := rfl
      cases hdy : (d.year == Y) with
      | true =>
          rw [if_pos hdy] at hb
          rw [hstep, ih _ (bumpTrend_nodup hnd (d.year, d.month) d.count), hb,
            List.filter_cons_of_pos (by exact hdy)]
          simp only [List.map_cons, List.sum_cons]
          omega
      | false =>
          rw [if_neg (by simp [hdy])] at hb
          rw [hstep, ih _ (bumpTrend_nodup hnd (d.year, d.month) d.count), hb,
            List.filter_cons_of_neg (by simp [hdy])]
          omega

/-- Helper: the trends loop preserves distinctness of the keys. -/
theorem foldTrends_nodup :
    ∀ (ns : NameMap) {acc : List ((Nat × Nat) × Nat)},
      (acc.map Prod.fst).Nodup →
      ((ns.foldl trendStep acc).map Prod.fst).Nodup := by
  intro ns
  induction ns with
  | nil =>
      intro acc h
      exact h
  | cons q rest ih =>
      intro acc h
      cases hq : q.2 with
      | points l =>
          have : trendStep acc q = addPoints acc l := by
            unfold trendStep
            rw [hq]
          simp only [List.foldl_cons, this]
          exact ih (addPoints_nodup l h)
      | monthMap l =>
          have : trendStep acc q = acc := by
            unfold trendStep
            rw [hq]
          simp only [List.foldl_cons, this]
          exact ih h
      | scalar n =>
          have : trendStep acc q = acc := by
            unfold trendStep
            rw [hq]
          simp only [List.foldl_cons, this]
          exact ih h

/-- Helper: the trends loop adds, per processed name, the year-restricted
series total to the per-year value sum of the trends map. -/
theorem foldTrends_yearSum (Y : Nat) :
    ∀ (ns : NameMap) (acc : List ((Nat × Nat) × Nat)),
      (acc.map Prod.fst).Nodup →
      (((ns.foldl trendStep acc).filter (fun e => e.1.1 == Y)).map
          (fun e => e.2)).sum
        = ((acc.filter (fun e => e.1.1 == Y)).map (fun e => e.2)).sum
          + (ns.map (fun q => seriesYearTotal Y q.2)).sum := by
  intro ns
  induction ns with
  | nil =>
      intro acc _
      simp
  | cons q rest ih =>
      intro acc hnd
      cases hq : q.2 with
      | points l =>
          have hstep : trendStep acc q = addPoints acc l := by
            unfold trendStep
            rw [hq]
          simp only [List.foldl_cons, hstep, List.map_cons, List.sum_cons, hq]
          rw [ih _ (addPoints_nodup l hnd), addPoints_yearSum Y l acc hnd]
          simp [seriesYearTotal]
          omega
      | monthMap l =>
          have hstep : trendStep acc q = acc := by
            unfold trendStep
            rw [hq]
          simp only [List.foldl_cons, hstep, List.map_cons, List.sum_cons, hq]
          rw [ih _ hnd]
          simp [seriesYearTotal]
      | scalar n =>
          have hstep : trendStep acc q = acc := by
            unfold trendStep
            rw [hq]
          simp only [List.foldl_cons, hstep, List.map_cons, List.sum_cons, hq]
          rw [ih _ hnd]
          simp [seriesYearTotal]

/-! ## C5: per-metric totals of the filtered model against trend sums -/

/-- Helper: the series totals of a successfully filtered names object sum to
the filtered count sums of the original entries. -/
theorem filterNames_sum {p : MonthlyDataPoint → Bool} :
    ∀ {ns r : NameMap}, filterNames p ns = some r →
      (r.map (fun q => seriesTotal q.2)).sum
        = (ns.map (fun q => match q.2 with
            | Series.points l => ((l.filter p).map (fun d => d.count)).sum
            | Series.monthMap _ => 0
            | Series.scalar _ => 0)).sum := by
  intro ns
  induction ns with
  | nil =>
      intro r h
      simp only [filterNames, Option.some.injEq] at h
      subst h
      rfl
  | cons e rest ih =>
      intro r h
      rw [filterNames_cons] at h
      cases he : e.2 with
      | monthMap l => rw [he] at h; simp [filterSeries] at h
      | scalar n => rw [he] at h; simp [filterSeries] at h
      | points l =>
          rw [he] at h
          simp only [filterSeries, Option.some_bind] at h
          cases hB : filterNames p rest with
          | none => rw [hB] at h; simp at h
          | some rest' =>
              rw [hB] at h
              simp only [Option.some_bind] at h
              simp only [List.map_cons, List.sum_cons, he]
              by_cases hyd : (l.filter p).isEmpty
              · rw [if_pos hyd] at h
                cases h
                have hz : ((l.filter p).map (fun d => d.count)).sum = 0 := by
                  rw [List.isEmpty_iff.mp hyd]
                  rfl
                rw [ih hB, hz]
                omega
              · rw [if_neg hyd] at h
                cases h
                simp only [List.map_cons, List.sum_cons]
                rw [ih hB]
                simp [seriesTotal]

/-- Helper: the metric keys of a successfully filtered model form a sublist
of the original keys. -/
theorem filterMetrics_keys_sublist {p : MonthlyDataPoint → Bool} :
    ∀ {m m' : OptimizedMetrics}, filterMetrics p m = some m' →
      (m'.map Prod.fst).Sublist (m.map Prod.fst) := by
  intro m
  induction m with
  | nil =>
      intro m' h
      simp only [filterMetrics, Option.some.injEq] at h
      subst h
      simp
  | cons e rest ih =>
      intro m' h
      rw [filterMetrics_cons] at h
      cases hA : filterNames p e.2 with
      | none => rw [hA] at h; simp at h
      | some ns' =>
          rw [hA] at h
          cases hB : filterMetrics p rest with
          | none => rw [hB] at h; simp at h
          | some rest' =>
              rw [hB] at h
              simp only [Option.some_bind] at h
              by_cases hns : ns'.isEmpty
              · rw [if_pos hns] at h
                cases h
                exact (ih hB).cons e.1
              · rw [if_neg hns] at h
                cases h
                simp only [List.map_cons]
                exact (ih hB).cons₂ e.1

/-- Helper: lookup misses exactly the keys absent from the key list. -/
theorem lookupKey_eq_none {α : Type} (l : List (String × α)) (k : String) :
    lookupKey l k = none ↔ k ∉ l.map Prod.fst := by
  unfold lookupKey
  rw [Option.map_eq_none', List.find?_eq_none]
  constructor
  · intro h hk
    obtain ⟨e, he, heq⟩ := List.mem_map.mp hk
    exact h e he (by simp [heq])
  · intro h e he hc
    rw [beq_iff_eq] at hc
    exact h (hc ▸ List.mem_map_of_mem Prod.fst he)

/-- Helper: after a successful metrics filter with distinct keys, looking up
a metric present in the input gives its filtered names object, or misses
when that object became empty. -/
theorem filterMetrics_lookup {p : MonthlyDataPoint → Bool} :
    ∀ {m m' : OptimizedMetrics}, (m.map Prod.fst).Nodup →
      filterMetrics p m = some m' → ∀ {metric : String} {ns : NameMap},
      lookupKey m metric = some ns →
      ∃ r, filterNames p ns = some r ∧
        lookupKey m' metric = (if r.isEmpty then none else some r) := by
  intro m
  induction m with
  | nil =>
      intro m' _ h metric ns hlk
      simp [lookupKey] at hlk
  | cons e rest ih =>
      intro m' hnd h metric ns hlk
      simp only [List.map_cons, List.nodup_cons] at hnd
      rw [filterMetrics_cons] at h
      cases hA : filterNames p e.2 with
      | none => rw [hA] at h; simp at h
      | some ns₀ =>
          rw [hA] at h
          cases hB : filterMetrics p rest with
          | none => rw [hB] at h; simp at h
          | some rest' =>
              rw [hB] at h
              simp only [Option.some_bind] at h
              by_cases hke : e.1 = metric
              · subst hke
                rw [lookupKey_cons_self] at hlk
                cases hlk
                refine ⟨ns₀, hA, ?_⟩
                by_cases hns : ns₀.isEmpty
                · rw [if_pos hns] at h
                  cases h
                  rw [if_pos hns, lookupKey_eq_none]
                  intro hmem
                  exact hnd.1 ((filterMetrics_keys_sublist hB).subset hmem)
                · rw [if_neg hns] at h
                  cases h
                  rw [if_neg hns]
                  exact lookupKey_cons_self (e.1, ns₀) rest'
              · rw [lookupKey_cons_ne e rest metric hke] at hlk
                obtain ⟨r, hr1, hr2⟩ := ih hnd.2 hB hlk
                refine ⟨r, hr1, ?_⟩
                by_cases hns : ns₀.isEmpty
                · rw [if_pos hns] at h
                  cases h
                  exact hr2
                · rw [if_neg hns] at h
                  cases h
                  rw [lookupKey_cons_ne (e.1, ns₀) rest' metric hke]
                  exact hr2

/-- Helper: the unrestricted per-metric total of a successfully filtered
model is the filtered count sum of the metric's original entries. -/
theorem calculateTotalsByMetric_filterMetrics {p : MonthlyDataPoint → Bool}
    {m m' : OptimizedMetrics} (hnd : (m.map Prod.fst).Nodup)
    (hf : filterMetrics p m = some m') (metric : String) :
    calculateTotalsByMetric m' metric none
      = (match lookupKey m metric with
         | none => 0
         | some ns => (ns.map (fun q => match q.2 with
             | Series.points l => ((l.filter p).map (fun d => d.count)).sum
             | Series.monthMap _ => 0
             | Series.scalar _ => 0)).sum) := by
  cases hlk : lookupKey m metric with
  | none =>
      have hnone : lookupKey m' metric = none := by
        rw [lookupKey_eq_none] at hlk ⊢
        intro hmem
        exact hlk ((filterMetrics_keys_sublist hf).subset hmem)
      unfold calculateTotalsByMetric
      rw [hnone]
  | some ns =>
      obtain ⟨r, hr1, hr2⟩ := filterMetrics_lookup hnd hf hlk
      unfold calculateTotalsByMetric
      by_cases hre : r.isEmpty
      · rw [if_pos hre] at hr2
        rw [hr2]
        have hsum := filterNames_sum hr1
        rw [List.isEmpty_iff.mp hre] at hsum
        simpa using hsum
      · rw [if_neg hre] at hr2
        rw [hr2]
        show ((r.filter (fun q => nameMatches none q.1)).map
          (fun q => seriesTotal q.2)).sum = _
        have hfil : r.filter (fun q => nameMatches none q.1) = r :=
          List.filter_eq_self.mpr (fun q _ => rfl)
        rw [hfil]
        exact filterNames_sum hr1

/-- Helper: the per-year total-count sum of the monthly trends of a metric
is the year-restricted total of the metric's entries. -/
theorem getMonthlyTrendsByMetric_yearSum (m : OptimizedMetrics)
    (metric : String) (Y : Nat) :
    (((getMonthlyTrendsByMetric m metric none).filter
        (fun t => t.year == Y)).map (fun t => t.total_count)).sum
      = (match lookupKey m metric with
         | none => 0
         | some ns => (ns.map (fun q => seriesYearTotal Y q.2)).sum) := by
  cases hlk : lookupKey m metric with
  | none =>
      unfold getMonthlyTrendsByMetric
      rw [hlk]
      rfl
  | some ns =>
      unfold getMonthlyTrendsByMetric
      rw [hlk]
      have hfil : ns.filter (fun p => nameMatches none p.1) = ns :=
        List.filter_eq_self.mpr (fun q _ => rfl)
      show ((((((ns.filter (fun p => nameMatches none p.1)).foldl trendStep
          []).map (fun e => TrendPoint.mk e.1.1 e.1.2 e.2)).mergeSort
          trendLe).filter (fun t => t.year == Y)).map
          (fun t => t.total_count)).sum = _
      rw [hfil]
      have hperm := List.mergeSort_perm ((ns.foldl trendStep []).map
        (fun e => TrendPoint.mk e.1.1 e.1.2 e.2)) trendLe
      have hsum := ((hperm.filter (fun t => t.year == Y)).map
        (fun t => t.total_count)).sum_eq
      rw [hsum, List.filter_map, List.map_map]
      show (((ns.foldl trendStep []).filter (fun e => e.1.1 == Y)).map
        (fun e => e.2)).sum = _
      have hfold := foldTrends_yearSum Y ns [] (by simp)
      simpa using hfold

/-- C5: for a model with distinct metric keys that filters successfully by a
year, the unrestricted per-metric total of the filtered model equals the sum
of total_count over the entries of the unfiltered model's monthly trends for
that metric whose year equals the filter year. -/
theorem calculateTotalsByMetric_filterYear_eq_trend_sum (m : OptimizedMetrics)
    (Y : Nat) (metric : String) (m' : OptimizedMetrics)
    (hnd : (m.map Prod.fst).Nodup)
    (hf : filterMetricsByYear m Y = some m') :
    calculateTotalsByMetric m' metric none
      = (((getMonthlyTrendsByMetric m metric none).filter
          (fun t => t.year == Y)).map (fun t => t.total_count)).sum := by
  have hf' : filterMetrics (fun d => d.year == Y) m = some m' := hf
  rw [getMonthlyTrendsByMetric_yearSum m metric Y,
    calculateTotalsByMetric_filterMetrics hnd hf' metric]
  rfl

/-- Witness for C5 at the specification's scenario: filtering the example
document to 2022 succeeds, its Transaction total is 30, and it equals the
2022 trend sum of the unfiltered document. -/
theorem calculateTotalsByMetric_filterYear_eq_trend_sum_witness :
    filterMetricsByYear exampleModel 2022
        = some [("Transaction", [("X", Series.points
            [⟨2022, 1, 10⟩, ⟨2022, 2, 20⟩])])] ∧
    calculateTotalsByMetric
        [("Transaction", [("X", Series.points [⟨2022, 1, 10⟩, ⟨2022, 2, 20⟩])])]
        "Transaction" none = 30 ∧
    calculateTotalsByMetric
        [("Transaction", [("X", Series.points [⟨2022, 1, 10⟩, ⟨2022, 2, 20⟩])])]
        "Transaction" none
      = (((getMonthlyTrendsByMetric exampleModel "Transaction" none).filter
          (fun t => t.year == 2022)).map (fun t => t.total_count)).sum :=
  ⟨by decide, by decide,
    calculateTotalsByMetric_filterYear_eq_trend_sum exampleModel 2022
      "Transaction" _ (by decide) (by decide)⟩

/-! ## C10: shape of the monthly-trends output -/

theorem trendLe_iff (a b : TrendPoint) :
    trendLe a b = true ↔
      a.year < b.year ∨ (a.year = b.year ∧ a.month ≤ b.month) := by
  simp [trendLe, Bool.or_eq_true, Bool.and_eq_true, Nat.blt_eq, Nat.ble_eq,
    beq_iff_eq]

theorem trendLe_trans (a b c : TrendPoint) (hab : trendLe a b = true)
    (hbc : trendLe b c = true) : trendLe a c = true := by
  rw [trendLe_iff] at hab hbc ⊢
  omega

theorem trendLe_total (a b : TrendPoint) :
    (trendLe a b || trendLe b a) = true := by
  rw [Bool.or_eq_true, trendLe_iff, trendLe_iff]
  omega

/-- C10: for every model, metric and optional name, the monthly-trends list
has pairwise-distinct (year, month) pairs, is sorted strictly ascending by
year and then month, and is empty whenever the metric is absent. -/
theorem getMonthlyTrendsByMetric_sorted_nodup (m : OptimizedMetrics)
    (metric : String) (name? : Option String) :
    ((getMonthlyTrendsByMetric m metric name?).map
        (fun t => (t.year, t.month))).Nodup ∧
    List.Pairwise (fun a b : TrendPoint =>
        a.year < b.year ∨ (a.year = b.year ∧ a.month < b.month))
      (getMonthlyTrendsByMetric m metric name?) ∧
    (lookupKey m metric = none → getMonthlyTrendsByMetric m metric name? = []) := by
  cases hlk : lookupKey m metric with
  | none =>
      have hempty : getMonthlyTrendsByMetric m metric name? = [] := by
        unfold getMonthlyTrendsByMetric
        rw [hlk]
      rw [hempty]
      exact ⟨List.nodup_nil, List.Pairwise.nil, fun _ => rfl⟩
  | some ns =>
      have hout : getMonthlyTrendsByMetric m metric name?
          = (((ns.filter (fun p => nameMatches name? p.1)).foldl trendStep
              []).map (fun e => TrendPoint.mk e.1.1 e.1.2 e.2)).mergeSort
              trendLe := by
        unfold getMonthlyTrendsByMetric
        rw [hlk]
      have hfnd : (((ns.filter (fun p => nameMatches name? p.1)).foldl trendStep
          []).map Prod.fst).Nodup := foldTrends_nodup _ (by simp)
      have hperm := List.mergeSort_perm
        (((ns.filter (fun p => nameMatches name? p.1)).foldl trendStep []).map
          (fun e => TrendPoint.mk e.1.1 e.1.2 e.2)) trendLe
      have hpairs : ((getMonthlyTrendsByMetric m metric name?).map
          (fun t => (t.year, t.month))).Perm
          (((ns.filter (fun p => nameMatches name? p.1)).foldl trendStep
            []).map Prod.fst) := by
        rw [hout]
        have h1 := hperm.map (fun t : TrendPoint => (t.year, t.month))
        have h2 : ((((ns.filter (fun p => nameMatches name? p.1)).foldl trendStep
            []).map (fun e => TrendPoint.mk e.1.1 e.1.2 e.2)).map
            (fun t => (t.year, t.month)))
            = ((ns.filter (fun p => nameMatches name? p.1)).foldl trendStep
              []).map Prod.fst := by
          rw [List.map_map]
          rfl
        rw [h2] at h1
        exact h1
      have hnodup : ((getMonthlyTrendsByMetric m metric name?).map
          (fun t => (t.year, t.month))).Nodup := hpairs.symm.nodup hfnd
      refine ⟨hnodup, ?_, ?_⟩
      · have hsorted := List.sorted_mergeSort trendLe_trans trendLe_total
          (((ns.filter (fun p => nameMatches name? p.1)).foldl trendStep
            []).map (fun e => TrendPoint.mk e.1.1 e.1.2 e.2))
        have hne : List.Pairwise (fun a b : TrendPoint =>
            (a.year, a.month) ≠ (b.year, b.month))
            (getMonthlyTrendsByMetric m metric name?) :=
          List.pairwise_map.mp hnodup
        rw [hout] at hne ⊢
        refine List.Pairwise.imp_of_mem ?_ (hsorted.and hne)
        intro a b _ _ hab
        obtain ⟨hle, hnep⟩ := hab
        rcases (trendLe_iff a b).mp hle with h | ⟨h1, h2⟩
        · exact Or.inl h
        · refine Or.inr ⟨h1, lt_of_le_of_ne h2 (fun hm => hnep ?_)⟩
          rw [h1, hm]
      · intro hc
        exact absurd hc (by simp)

/-- Witness for C10 at the example document: the trend pairs are distinct
and a metric absent from the document yields the empty list. -/
theorem getMonthlyTrendsByMetric_sorted_nodup_witness :
    ((getMonthlyTrendsByMetric exampleModel "Transaction" none).map
        (fun t => (t.year, t.month))).Nodup ∧
    getMonthlyTrendsByMetric exampleModel "Missing" none = [] :=
  ⟨(getMonthlyTrendsByMetric_sorted_nodup exampleModel "Transaction" none).1,
   (getMonthlyTrendsByMetric_sorted_nodup exampleModel "Missing" none).2.2 rfl⟩

end IndiaVehicleStats
